import Mathlib

/-!
Verification of the Earth-Launcher installation pipeline (src/main.py and
src/earth_launcher_windows.py), shallowly embedded in Lean: directory
listings become lists of entries, the shared progress table becomes optional
fields on catalog entries, download chunks and archive members become lists,
and the exception points of install_game become an explicit outcome value.
-/

namespace EarthLauncher

/-! Section: String helpers mirroring Python semantics

All string manipulation is implemented on the underlying character lists,
which the kernel evaluates on concrete inputs. -/

/-- ASCII lowercasing, as Python str.lower does on these names. -/
def lowerStr (s : String) : String :=
  ⟨s.data.map Char.toLower⟩

/-- Python str.startswith. -/
def strStartsWith (s p : String) : Bool :=
  p.data.isPrefixOf s.data

/-- Python str.endswith. -/
def strEndsWith (s p : String) : Bool :=
  p.data.isSuffixOf s.data

/-- Python str.replace of every occurrence of ".zip" by the empty string,
scanning left to right over non-overlapping occurrences. -/
def stripZipAll : List Char → List Char
  | '.' :: 'z' :: 'i' :: 'p' :: rest => stripZipAll rest
  | c :: rest => c :: stripZipAll rest
  | [] => []

/-- name.replace of ".zip" by the empty string. -/
def removeZip (s : String) : String :=
  ⟨stripZipAll s.data⟩

/-- Length of the Python pathlib suffix of a file name: the part from the
last dot, provided that dot is neither the first nor the last character
(pathlib returns an empty suffix otherwise). -/
def pySuffixLen (s : String) : Nat :=
  let cs := s.data
  match cs.reverse.findIdx? (fun c => c = '.') with
  | none => 0
  | some j =>
    let i := cs.length - 1 - j
    if 0 < i ∧ i < cs.length - 1 then cs.length - i else 0

/-- Python pathlib: the name has a nonempty suffix. -/
def pyHasSuffix (s : String) : Bool :=
  decide (pySuffixLen s ≠ 0)

/-- Python pathlib stem: name with its suffix removed. -/
def pyStem (s : String) : String :=
  ⟨s.data.take (s.data.length - pySuffixLen s)⟩

/-- Python name[0].isupper() for ASCII names. -/
def isUpperFirst (s : String) : Bool :=
  match s.data with
  | [] => false
  | c :: _ => c.isUpper

/-- Final path component of a locator string (Path keeps only the name):
the characters after the last slash. -/
def baseName (s : String) : String :=
  ⟨(s.data.reverse.takeWhile (fun c => c ≠ '/')).reverse⟩

/-! Section: Executable resolution (GameLauncher.run_game, first pass and fallbacks) -/

/-- An entry of a game directory: its name, whether it is a regular file,
and whether its execute permission bit is set. -/
structure FileEntry where
  name : String
  isFile : Bool
  exec : Bool
deriving DecidableEq

/-- The lowercased candidate names tested by run_game's first pass. -/
def mainNames : List String :=
  ["gameruntime", "game", "main", "start", "run", "launch", "app", "program"]

/-- The exact names probed by set_execute_permissions, in probe order. -/
def exactNames : List String :=
  ["GameRuntime", "game", "main", "start", "run", "launch", "app", "program"]

/-- run_game: a file looks like a main executable when its lowercased name
is on the candidate list, or it has no extension and starts uppercase. -/
def isMainExecutable (f : FileEntry) : Bool :=
  mainNames.contains (lowerStr f.name) ||
    (!pyHasSuffix f.name && isUpperFirst f.name)

/-- run_game first pass: launch the first regular file that has the execute
bit set or looks like a main executable. -/
def runGameCandidate (f : FileEntry) : Bool :=
  f.isFile && (f.exec || isMainExecutable f)

/-- run_game second pass: common executable names crossed with extensions,
in name-major order; the first name present in the directory wins. -/
def fallbackNames : List String :=
  ["game", "main", "start", "run", "launch", "app", "program"]

def fallbackExts : List String :=
  ["", ".py", ".sh", ".exe", ".bin", ".elf"]

def fallbackCommon (dir : List FileEntry) : Option String :=
  ((fallbackNames.map
      (fun e => fallbackExts.map (fun x => e ++ x))).flatten).find?
    (fun nm => dir.any (fun f => f.name = nm))

/-- run_game third pass: the first entry whose name matches the *.py glob. -/
def fallbackPy (dir : List FileEntry) : Option String :=
  (dir.find? (fun f => strEndsWith f.name ".py")).map (fun f => f.name)

/-- The path run_game launches, as a function of the directory listing in
iteration order (launch attempts are assumed to succeed). -/
def resolveRunGame (dir : List FileEntry) : Option String :=
  match dir.find? runGameCandidate with
  | some f => some f.name
  | none =>
    match fallbackCommon dir with
    | some nm => some nm
    | none => fallbackPy dir

/-- Set the execute bit on every entry carrying the given name (chmod 755
reaches the one path of that name). -/
def bumpExec (t : String) (f : FileEntry) : FileEntry :=
  if f.name = t then { f with exec := true } else f

/-- set_execute_permissions: probe the exact candidate names in list order
and chmod the first present; otherwise chmod the first extensionless file
whose name starts uppercase; otherwise do nothing. -/
def setExecutePermissions (dir : List FileEntry) : List FileEntry :=
  match exactNames.find? (fun n => dir.any (fun f => f.name = n)) with
  | some n => dir.map (bumpExec n)
  | none =>
    match dir.find? (fun f => f.isFile && (!pyHasSuffix f.name && isUpperFirst f.name)) with
    | some f => dir.map (bumpExec f.name)
    | none => dir

/-! Section: Progress Ledger (installing, progress, action fields on game entries) -/

/-- The in-flight fields update_install_progress writes on a game entry:
the action string and the percent value. Presence of the record models
presence of the installing, progress and action keys. -/
structure ProgressEntry where
  action : String
  percent : ℚ
deriving DecidableEq

/-- One entry of self.games: catalog data plus optional in-flight fields. -/
structure GameEntry where
  name : String
  url : String
  size : Nat
  ledger : Option ProgressEntry
deriving DecidableEq

/-- Update the first list element satisfying the predicate (both ledger
writers scan self.games and break at the first name match). -/
def updateFirst (p : α → Bool) (f : α → α) : List α → List α
  | [] => []
  | x :: xs => if p x then f x :: xs else x :: updateFirst p f xs

/-- update_install_progress: set the in-flight fields on the first game of
the given name. -/
def updateInstallProgress (games : List GameEntry) (nm : String) (pct : ℚ)
    (act : String) : List GameEntry :=
  updateFirst (fun g => g.name = nm)
    (fun g => { g with ledger := some ⟨act, pct⟩ }) games

/-- clear_install_progress: pop the in-flight fields on the first game of
the given name. -/
def clearInstallProgress (games : List GameEntry) (nm : String) : List GameEntry :=
  updateFirst (fun g => g.name = nm) (fun g => { g with ledger := none }) games

/-- Apply a sequence of percent reports for one phase, in order. -/
def applyReports (games : List GameEntry) (nm : String) (act : String)
    (ps : List ℚ) : List GameEntry :=
  ps.foldl (fun gs p => updateInstallProgress gs nm p act) games

/-- The in-flight fields currently stored for a game name. -/
def ledgerOf (games : List GameEntry) (nm : String) : Option ProgressEntry :=
  (games.find? (fun g => g.name = nm)).bind (fun g => g.ledger)

/-! Section: Progress reports of the transfer and extraction routines -/

/-- Cumulative sums of a list, starting from the given accumulator. -/
def cumSums (acc : Nat) : List Nat → List Nat
  | [] => []
  | c :: cs => (acc + c) :: cumSums (acc + c) cs

/-- download_with_progress: after each nonempty chunk, report
downloaded / total_size * 100, but only when the declared content-length is
positive; empty chunks are neither written nor reported. -/
def downloadReports (total : Nat) (chunks : List Nat) : List ℚ :=
  if total = 0 then []
  else
    (cumSums 0 (chunks.filter (fun c => c ≠ 0))).map
      (fun s : Nat => ((s : ℚ) / (total : ℚ)) * 100)

/-- The chunk sizes requests yields for a payload of n bytes at
chunk_size 8192: full chunks then the remainder. -/
def chunksOf (n : Nat) : List Nat :=
  List.replicate (n / 8192) 8192 ++ (if n % 8192 = 0 then [] else [n % 8192])

/-- extract_with_progress: after the i-th of n archive members, report
(i + 1) / n * 100. -/
def extractReports (n : Nat) : List ℚ :=
  (List.range n).map (fun i : Nat => (((i : ℚ) + 1) / (n : ℚ)) * 100)

/-! Section: Install root and the install / delete / activate operations -/

/-- A top-level entry of the games directory. -/
structure RootEntry where
  name : String
  isDir : Bool
deriving DecidableEq

/-- Launcher state: the catalog with its in-flight fields, the cached
installed-games set, and the top-level entries of the games directory. -/
structure LauncherState where
  games : List GameEntry
  installedGames : List String
  rootEntries : List RootEntry
deriving DecidableEq

/-- Writing a file: creates the entry when no entry of that name exists
(otherwise the existing file is overwritten in place). -/
def addFile (root : List RootEntry) (nm : String) : List RootEntry :=
  if root.any (fun e => e.name = nm) then root else root ++ [⟨nm, false⟩]

/-- Extraction creating the per-game directory. -/
def addDir (root : List RootEntry) (nm : String) : List RootEntry :=
  if root.any (fun e => e.name = nm) then root else root ++ [⟨nm, true⟩]

/-- unlink / rmtree of the entry of the given name. -/
def removeEntry (root : List RootEntry) (nm : String) : List RootEntry :=
  root.filter (fun e => e.name ≠ nm)

/-- installed_games.add on the cached set. -/
def insertName (l : List String) (nm : String) : List String :=
  if l.contains nm then l else l ++ [nm]

/-- Where install_game's try block stops: an exception inside the download
loop after k reports, an exception inside the extraction loop after k
member extractions, or no exception at all. -/
inductive InstallOutcome where
  | failDownload (k : Nat)
  | failExtract (k : Nat)
  | ok
deriving DecidableEq

/-- Environment of one install_game call: the declared content-length, the
chunk sizes the connection yields, the archive member count, and where the
try block stops. -/
structure InstallEnv where
  totalSize : Nat
  chunks : List Nat
  zipEntryCount : Nat
  outcome : InstallOutcome
deriving DecidableEq

/-- True when the locator is remote (startswith http). -/
def isRemoteUrl (u : String) : Bool :=
  strStartsWith u "http"

/-- The name under the games directory of the archive install_game works
with: the staging file name.zip for a remote game, the local archive file
itself for a local one. -/
def installZipName (g : GameEntry) : String :=
  if isRemoteUrl g.url then g.name ++ ".zip" else baseName g.url

/-- install_game. Mirrors the source line by line: bail out when an entry
of the game's name exists; download (remote only), reporting progress;
extract, reporting progress; fix permissions (raises when the archive had
no members, since iterdir runs on a directory never created); delete the
archive; cache the name as installed; clear the in-flight fields. Every
exception path returns false with the in-flight fields left as they are. -/
def installGame (st : LauncherState) (g : GameEntry) (env : InstallEnv) :
    Bool × LauncherState :=
  if st.rootEntries.any (fun e => e.name = g.name) then
    (false, st)
  else
    let remote := isRemoteUrl g.url
    let zipName := installZipName g
    let dRep := if remote then downloadReports env.totalSize env.chunks else []
    match env.outcome with
    | InstallOutcome.failDownload k =>
      let games1 := applyReports st.games g.name "Downloading" (dRep.take k)
      let root1 := if remote then addFile st.rootEntries zipName else st.rootEntries
      (false, { st with games := games1, rootEntries := root1 })
    | InstallOutcome.failExtract k =>
      let games1 := applyReports st.games g.name "Downloading" dRep
      let games2 := applyReports games1 g.name "Extracting"
        ((extractReports env.zipEntryCount).take k)
      let root1 := if remote then addFile st.rootEntries zipName else st.rootEntries
      let root2 := if 1 ≤ k then addDir root1 g.name else root1
      (false, { st with games := games2, rootEntries := root2 })
    | InstallOutcome.ok =>
      let games1 := applyReports st.games g.name "Downloading" dRep
      let games2 := applyReports games1 g.name "Extracting"
        (extractReports env.zipEntryCount)
      let root1 := if remote then addFile st.rootEntries zipName else st.rootEntries
      if env.zipEntryCount = 0 then
        (false, { st with games := games2, rootEntries := root1 })
      else
        let root2 := addDir root1 g.name
        let root3 := removeEntry root2 zipName
        let games3 := clearInstallProgress games2 g.name
        (true, { games := games3,
                 installedGames := insertName st.installedGames g.name,
                 rootEntries := root3 })

/-- delete_game: rmtree the per-game directory when it exists (rmtree on a
plain file raises, which the handler turns into false). -/
def deleteGame (st : LauncherState) (g : GameEntry) : Bool × LauncherState :=
  match st.rootEntries.find? (fun e => e.name = g.name) with
  | some e =>
    if e.isDir then
      (true, { st with
                rootEntries := removeEntry st.rootEntries g.name,
                installedGames := st.installedGames.filter (fun n => n ≠ g.name) })
    else (false, st)
  | none => (false, st)

/-! Section: Catalog fetch (GameLauncher.load_games and load_local_games) -/

/-- One item of the remote repository listing. -/
structure ContentEntry where
  name : String
  downloadUrl : String
  size : Nat
deriving DecidableEq

/-- One entry of the local games directory, as seen by the fallback glob. -/
structure LocalEntry where
  name : String
  size : Nat
deriving DecidableEq

/-- load_local_games: append a game for every *.zip match in the local
games directory to the current list (the list is not reset first). -/
def loadLocalGames (prev : List GameEntry) (listing : List LocalEntry) :
    List GameEntry :=
  prev ++ (listing.filter (fun e => strEndsWith e.name ".zip")).map
    (fun e => { name := pyStem e.name,
                url := "games/" ++ e.name,
                size := e.size,
                ledger := none })

/-- load_games: on a successful fetch the list is rebuilt from the zip
entries of the listing (name = filename with every ".zip" occurrence
removed); the network calls precede the reset of self.games, so a failure
leaves the previous list in place and the local fallback appends to it. -/
def loadGames (prev : List GameEntry) (remote : Except Unit (List ContentEntry))
    (listing : List LocalEntry) : List GameEntry :=
  match remote with
  | Except.ok cs =>
    (cs.filter (fun c => strEndsWith c.name ".zip")).map
      (fun c => { name := removeZip c.name,
                  url := c.downloadUrl,
                  size := c.size,
                  ledger := none })
  | Except.error _ => loadLocalGames prev listing

/-! Section: Activation and the double-install race (GameLauncher.handle_input) -/

/-- What pressing A on a highlighted game does. -/
inductive ActivateAction where
  | launchGame
  | startInstall
deriving DecidableEq

/-- handle_input: launch when the name is in the cached installed set,
otherwise spawn an installer thread. No other data is consulted. -/
def activateAction (installed : List String) (g : GameEntry) : ActivateAction :=
  if installed.contains g.name then ActivateAction.launchGame
  else ActivateAction.startInstall

/-- Phase of one installer worker for a fixed game: before the directory
existence check, past the check (downloading), extracting (the per-game
directory now exists), or stopped by the check. -/
inductive WorkerPhase where
  | idle
  | passedCheck
  | extracting
  | rejected
deriving DecidableEq

/-- Two workers installing the same game, plus whether the per-game
directory exists yet. Abstracted from install_game: the existence check
reads the directory, and extraction creates it. -/
structure RaceState where
  dirExists : Bool
  w1 : WorkerPhase
  w2 : WorkerPhase
deriving DecidableEq

/-- One step of a worker: run the existence check, or begin extracting. -/
def stepPhase (dirE : Bool) (p : WorkerPhase) : WorkerPhase × Bool :=
  match p with
  | WorkerPhase.idle =>
    if dirE then (WorkerPhase.rejected, dirE) else (WorkerPhase.passedCheck, dirE)
  | WorkerPhase.passedCheck => (WorkerPhase.extracting, true)
  | ph => (ph, dirE)

/-- Interleaving: true advances worker one, false advances worker two. -/
def raceStep (s : RaceState) (first : Bool) : RaceState :=
  if first then
    let pd := stepPhase s.dirExists s.w1
    { s with w1 := pd.1, dirExists := pd.2 }
  else
    let pd := stepPhase s.dirExists s.w2
    { s with w2 := pd.1, dirExists := pd.2 }

/-- Run a schedule of worker moves from a state. -/
def runSchedule (s : RaceState) (moves : List Bool) : RaceState :=
  moves.foldl raceStep s

/-- Both workers not yet started, game not yet installed. -/
def raceInit : RaceState :=
  ⟨false, WorkerPhase.idle, WorkerPhase.idle⟩

/-! Section: Concrete states used by the claim theorems -/

/-- A one-game catalog entry for a remote game named G. -/
def gRemote : GameEntry :=
  { name := "G", url := "http://x/G.zip", size := 100, ledger := none }

/-- Fresh launcher state holding only the remote game G. -/
def stFresh : LauncherState :=
  { games := [gRemote], installedGames := [], rootEntries := [] }

/-- Environment where the download succeeds in one full chunk and the
extraction of a four-member archive raises after the second member. -/
def envExtractFail : InstallEnv :=
  { totalSize := 100, chunks := [100], zipEntryCount := 4,
    outcome := InstallOutcome.failExtract 2 }

/-! Section: Claim theorems -/

/-- C1. The spec requires every failing installation to clear the game's
Progress Ledger entry before install_game returns, exactly as the success
path does. The code's exception handler returns False without clearing:
after a download that reported progress and an extraction that raises after
its second member, install_game returns false and the game still carries
the in-flight fields, with action Extracting at fifty percent. -/
theorem c1_failure_leaves_ledger_entry :
    (installGame stFresh gRemote envExtractFail).1 = false ∧
    ledgerOf (installGame stFresh gRemote envExtractFail).2.games "G" ≠ none ∧
    (ledgerOf (installGame stFresh gRemote envExtractFail).2.games "G").map
        (fun e => e.action) = some "Extracting" := by
  refine ⟨rfl, ?_, ?_⟩ <;> decide

/-- C2 counterexample. In a directory whose iteration order lists an
executable-bit file zzz before the candidate-list file main, run_game
launches zzz: a file chosen merely for its execute bit wins over the
name-list match, so the claimed priority of the name list does not hold. -/
theorem c2_counterexample :
    resolveRunGame
        [⟨"zzz", true, true⟩, ⟨"main", true, false⟩] = some "zzz" ∧
    mainNames.contains (lowerStr "main") = true ∧
    mainNames.contains (lowerStr "zzz") = false := by
  decide

/-- C3 counterexample. A game with an in-flight ledger entry and not in the
cached installed set is activated again: handle_input starts a second
installer rather than rejecting, and interleaving the two workers through
the directory-existence check before either extracts reaches a state where
both extract into the same destination. -/
theorem c3_counterexample :
    activateAction []
        { name := "G", url := "http://x/G.zip", size := 100,
          ledger := some ⟨"Downloading", 40⟩ } = ActivateAction.startInstall ∧
    (runSchedule raceInit [true, false, true, false]).w1 =
      WorkerPhase.extracting ∧
    (runSchedule raceInit [true, false, true, false]).w2 =
      WorkerPhase.extracting := by
  decide

/-- C4 counterexample. With a nonempty previous catalog, a failed remote
fetch with an empty local directory keeps the previous list (the reset of
the list happens only after the network calls succeed), whereas an empty
catalog yields the empty list: the two observable game lists differ. -/
theorem c4_counterexample :
    loadGames [⟨"A", "http://a", 1, none⟩] (Except.error ()) [] =
      [⟨"A", "http://a", 1, none⟩] ∧
    loadGames [⟨"A", "http://a", 1, none⟩] (Except.ok []) [] = [] := by
  decide

/-- C5 counterexample. For an archive with zero members, extraction
completes without reporting, the per-game directory is never created, the
permission fix-up raises while listing it, and install_game returns false
with the downloaded archive still on disk: the archive is not deleted. -/
theorem c5_counterexample :
    (installGame stFresh gRemote
        { totalSize := 100, chunks := [100], zipEntryCount := 0,
          outcome := InstallOutcome.ok }).1 = false ∧
    (installGame stFresh gRemote
        { totalSize := 100, chunks := [100], zipEntryCount := 0,
          outcome := InstallOutcome.ok }).2.rootEntries =
      [⟨"G.zip", false⟩] := by
  decide

/-- C7 counterexample. When the server declares one hundred bytes but sends
a two-hundred-byte chunk, the download loop reports two hundred percent and
update_install_progress stores it unclamped: a ledger percent above one
hundred is reachable. -/
theorem c7_counterexample :
    downloadReports 100 [200] = [200] ∧
    ledgerOf (updateInstallProgress [gRemote] "G" 200 "Downloading") "G" =
      some ⟨"Downloading", 200⟩ ∧
    ¬ ((200 : ℚ) ≤ 100) := by
  refine ⟨?_, ?_, ?_⟩
  · norm_num [downloadReports, cumSums]
  · decide
  · norm_num

/-- C8 counterexample. A local-source game's archive lives directly in the
install root; install_game extracts it and then deletes it, so installing
and uninstalling the game leaves the root without the archive entry it
started with: the round trip does not restore the top-level entries. -/
theorem c8_counterexample :
    (deleteGame
        (installGame
            { games := [⟨"G", "games/G.zip", 5, none⟩], installedGames := [],
              rootEntries := [⟨"G.zip", false⟩] }
            ⟨"G", "games/G.zip", 5, none⟩
            { totalSize := 0, chunks := [], zipEntryCount := 1,
              outcome := InstallOutcome.ok }).2
        ⟨"G", "games/G.zip", 5, none⟩).2.rootEntries = [] ∧
    ([⟨"G.zip", false⟩] : List RootEntry) ≠ [] := by
  decide

/-- C10. When an entry of the game's name (in particular its per-name
directory) already exists under the install root, install_game returns
false at once: nothing is downloaded or extracted, no file is written, and
the Progress Ledger is untouched — the returned state is exactly the input
state. -/
theorem c10_already_installed_noop (st : LauncherState) (g : GameEntry)
    (env : InstallEnv)
    (h : ∃ e ∈ st.rootEntries, e.name = g.name ∧ e.isDir = true) :
    installGame st g env = (false, st) := by
  obtain ⟨e, he, hn, -⟩ := h
  have hany : st.rootEntries.any (fun x => x.name = g.name) = true :=
    List.any_eq_true.mpr ⟨e, he, by simp [hn]⟩
  simp [installGame, hany]

/-- Witness for C10 at a concrete state whose root already holds the
directory G. -/
theorem c10_already_installed_noop_witness :
    installGame
        { games := [gRemote], installedGames := ["G"],
          rootEntries := [⟨"G", true⟩] }
        gRemote envExtractFail =
      (false,
        { games := [gRemote], installedGames := ["G"],
          rootEntries := [⟨"G", true⟩] }) :=
  c10_already_installed_noop _ _ _ ⟨⟨"G", true⟩, by decide, by decide⟩

/-- C4 amended. The fetch is total (never raises); on a remote failure the
local fallback appends the local zip archives to the previous list rather
than replacing it, so the failure path coincides with the empty-catalog
result exactly when the previous list is empty (as on the initial load)
and the local directory holds no archives. -/
theorem c4_fallback_appends (prev : List GameEntry) (listing : List LocalEntry) :
    loadGames prev (Except.error ()) listing = prev ++ loadLocalGames [] listing ∧
    (prev = [] → (∀ e ∈ listing, strEndsWith e.name ".zip" = false) →
      loadGames prev (Except.error ()) listing = loadGames [] (Except.ok []) []) := by
  constructor
  · simp [loadGames, loadLocalGames]
  · intro hp hz
    subst hp
    have hfil : listing.filter (fun e => strEndsWith e.name ".zip") = [] := by
      rw [List.filter_eq_nil_iff]
      intro e he
      simp [hz e he]
    simp [loadGames, loadLocalGames, hfil]

/-- Witness for C4 amended: empty previous list, a local directory holding
only a text file. -/
theorem c4_fallback_appends_witness :
    loadGames [] (Except.error ()) [⟨"readme.txt", 3⟩] =
      [] ++ loadLocalGames [] [⟨"readme.txt", 3⟩] ∧
    loadGames [] (Except.error ()) [⟨"readme.txt", 3⟩] =
      loadGames [] (Except.ok []) [] :=
  ⟨(c4_fallback_appends [] [⟨"readme.txt", 3⟩]).1,
   (c4_fallback_appends [] [⟨"readme.txt", 3⟩]).2 rfl (by decide)⟩

/-- C3 amended. Pressing A on a game outside the cached installed set
starts an installer regardless of any in-flight ledger entry — handle_input
never consults the ledger; the only guard is the directory-existence check
inside install_game, so a second activation is stopped exactly when its
check runs after the first worker began extraction (the check then
rejects, and a rejected worker stays rejected and never extracts). -/
theorem c3_ledger_not_consulted (installed : List String) (g : GameEntry)
    (e : ProgressEntry) (s : RaceState) (moves : List Bool)
    (hni : installed.contains g.name = false)
    (hrej : s.w2 = WorkerPhase.rejected) :
    activateAction installed { g with ledger := some e } =
      ActivateAction.startInstall ∧
    stepPhase true WorkerPhase.idle = (WorkerPhase.rejected, true) ∧
    (runSchedule s moves).w2 = WorkerPhase.rejected := by
  have hmem : g.name ∉ installed := by simpa using hni
  refine ⟨by simp [activateAction, hmem], rfl, ?_⟩
  induction moves generalizing s with
  | nil => exact hrej
  | cons m ms ih =>
    have hstep : (raceStep s m).w2 = WorkerPhase.rejected := by
      cases m <;> simp [raceStep, hrej, stepPhase]
    exact ih _ hstep

/-- Witness for C3 amended: a game with an in-flight entry, an empty
installed set, and a schedule run from a state whose second worker was
rejected by the existence check. -/
theorem c3_ledger_not_consulted_witness :
    activateAction [] { gRemote with ledger := some ⟨"Downloading", 40⟩ } =
      ActivateAction.startInstall ∧
    stepPhase true WorkerPhase.idle = (WorkerPhase.rejected, true) ∧
    (runSchedule ⟨true, WorkerPhase.extracting, WorkerPhase.rejected⟩
        [false, true, false]).w2 = WorkerPhase.rejected :=
  c3_ledger_not_consulted [] gRemote ⟨"Downloading", 40⟩
    ⟨true, WorkerPhase.extracting, WorkerPhase.rejected⟩
    [false, true, false] (by decide) rfl

/-- C2 amended. run_game launches the first file in directory iteration
order that is a regular file and either has its execute bit set, matches
the candidate-name list case-insensitively, or is extensionless with an
uppercase initial; consequently a name-list match is launched ahead of an
executable-bit file exactly when it comes first in iteration order — in
particular whenever every entry before it fails the combined test. -/
theorem c2_first_qualifying_launched (pre post : List FileEntry) (m : FileEntry)
    (hm : m.isFile = true) (hmain : isMainExecutable m = true)
    (hpre : ∀ f ∈ pre, runGameCandidate f = false) :
    resolveRunGame (pre ++ m :: post) = some m.name := by
  have hcand : runGameCandidate m = true := by
    simp [runGameCandidate, hm, hmain]
  have hfind : ∀ l : List FileEntry, (∀ f ∈ l, runGameCandidate f = false) →
      (l ++ m :: post).find? runGameCandidate = some m := by
    intro l
    induction l with
    | nil =>
      intro
      simp [List.find?_cons, hcand]
    | cons a l2 ih =>
      intro h
      have ha : runGameCandidate a = false := h a (by simp)
      rw [List.cons_append, List.find?_cons, ha]
      exact ih (fun f hf => h f (by simp [hf]))
  simp [resolveRunGame, hfind pre hpre]

/-- Witness for C2 amended: the candidate-list file main, preceded only by
a non-qualifying text file, is launched ahead of a later executable-bit
file. -/
theorem c2_first_qualifying_launched_witness :
    resolveRunGame
        [⟨"readme.txt", true, false⟩, ⟨"main", true, false⟩,
         ⟨"zzz", true, true⟩] = some "main" :=
  c2_first_qualifying_launched [⟨"readme.txt", true, false⟩]
    [⟨"zzz", true, true⟩] ⟨"main", true, false⟩ rfl (by decide) (by decide)

/-! Section: Arithmetic facts about the report sequences -/

theorem cumSums_length (acc : Nat) (l : List Nat) :
    (cumSums acc l).length = l.length := by
  induction l generalizing acc with
  | nil => rfl
  | cons c cs ih => simp [cumSums, ih]

theorem cumSums_getElem (acc : Nat) (l : List Nat) (k : Nat)
    (h : k < (cumSums acc l).length) :
    (cumSums acc l)[k] = acc + (l.take (k + 1)).sum := by
  induction l generalizing acc k with
  | nil => simp [cumSums] at h
  | cons c cs ih =>
    cases k with
    | zero => simp [cumSums]
    | succ k2 =>
      have h2 : k2 < (cumSums (acc + c) cs).length := by
        simpa [cumSums] using h
      simp only [cumSums, List.getElem_cons_succ]
      rw [ih (acc + c) k2 h2]
      simp [List.sum_cons]
      omega

theorem cumSums_mem_le (acc : Nat) (l : List Nat) (x : Nat)
    (hx : x ∈ cumSums acc l) : x ≤ acc + l.sum := by
  induction l generalizing acc with
  | nil => simp [cumSums] at hx
  | cons c cs ih =>
    simp only [cumSums, List.mem_cons] at hx
    rcases hx with hx | hx
    · subst hx
      simp [List.sum_cons]
    · have := ih (acc + c) hx
      simp [List.sum_cons] at this ⊢
      omega

theorem filter_sum_le (p : Nat → Bool) (l : List Nat) :
    (l.filter p).sum ≤ l.sum := by
  induction l with
  | nil => simp
  | cons c cs ih =>
    by_cases hc : p c <;> simp [List.filter_cons, hc] <;> omega

/-- C6. The transfer loop is chunked: every chunk of an n-byte payload is
nonempty and at most 8 KiB and the chunks sum to the payload; when the
response declares no size the download phase reports nothing; when it
declares a positive size, the report after the k-th nonempty chunk is the
bytes received so far divided by the declared total, times one hundred. -/
theorem c6_download_streaming (n total : Nat) (chunks : List Nat) (c k : Nat)
    (hc : c ∈ chunksOf n)
    (hk : k < (chunks.filter (fun x => x ≠ 0)).length)
    (ht : total ≠ 0) :
    (0 < c ∧ c ≤ 8192) ∧
    (chunksOf n).sum = n ∧
    downloadReports 0 chunks = [] ∧
    (downloadReports total chunks).getD k 0 =
      ((((chunks.filter (fun x => x ≠ 0)).take (k + 1)).sum : ℚ) /
        (total : ℚ)) * 100 := by
  refine ⟨?_, ?_, by simp [downloadReports], ?_⟩
  · rcases List.mem_append.mp hc with h1 | h2
    · have hc8 : c = 8192 := List.eq_of_mem_replicate h1
      subst hc8
      exact ⟨by norm_num, le_refl _⟩
    · by_cases hm : n % 8192 = 0
      · rw [if_pos hm] at h2
        simp at h2
      · rw [if_neg hm] at h2
        have hcm : c = n % 8192 := by simpa using h2
        subst hcm
        exact ⟨Nat.pos_of_ne_zero hm, le_of_lt (Nat.mod_lt n (by norm_num))⟩
  · rw [chunksOf, List.sum_append, List.sum_replicate, smul_eq_mul]
    by_cases hm : n % 8192 = 0 <;> simp [hm] <;> try omega
  · have hlf : k < (cumSums 0 (chunks.filter (fun x => x ≠ 0))).length := by
      rw [cumSums_length]
      exact hk
    have hmap : downloadReports total chunks =
        (cumSums 0 (chunks.filter (fun x => x ≠ 0))).map
          (fun s : Nat => ((s : ℚ) / (total : ℚ)) * 100) := by
      rw [downloadReports, if_neg ht]
    have hb : k < ((cumSums 0 (chunks.filter (fun x => x ≠ 0))).map
        (fun s : Nat => ((s : ℚ) / (total : ℚ)) * 100)).length := by
      rw [List.length_map]
      exact hlf
    rw [hmap, List.getD_eq_getElem _ 0 hb, List.getElem_map,
      cumSums_getElem _ _ _ hlf]
    norm_num

/-- Witness for C6 at a ten-thousand-byte payload downloaded in two chunks
against a declared total of ten thousand: the second report is exactly one
hundred percent. -/
theorem c6_download_streaming_witness :
    (0 < 8192 ∧ 8192 ≤ 8192) ∧
    (chunksOf 10000).sum = 10000 ∧
    downloadReports 0 [8192, 1808] = [] ∧
    (downloadReports 10000 [8192, 1808]).getD 1 0 = 100 := by
  have h := c6_download_streaming 10000 10000 [8192, 1808] 8192 1
    (by decide) (by decide) (by decide)
  refine ⟨h.1, h.2.1, h.2.2.1, ?_⟩
  rw [h.2.2.2]
  norm_num

/-- C7 amended. Extraction percents always lie in the unit-to-hundred
range, and download percents do as well provided the bytes received do not
exceed the declared total; the code never clamps, so the bound on download
percents genuinely depends on the server declaring at least as many bytes
as it sends. -/
theorem c7_percent_bounds (total m : Nat) (chunks : List Nat) (q r : ℚ)
    (hs : chunks.sum ≤ total)
    (hq : q ∈ downloadReports total chunks)
    (hr : r ∈ extractReports m) :
    (0 ≤ q ∧ q ≤ 100) ∧ (0 ≤ r ∧ r ≤ 100) := by
  constructor
  · by_cases ht : total = 0
    · subst ht
      simp [downloadReports] at hq
    · rw [downloadReports, if_neg ht] at hq
      rcases List.mem_map.mp hq with ⟨s, hsmem, rfl⟩
      have h1 : s ≤ 0 + (chunks.filter (fun c => c ≠ 0)).sum :=
        cumSums_mem_le 0 _ s hsmem
      have h2 : (chunks.filter (fun c => c ≠ 0)).sum ≤ chunks.sum :=
        filter_sum_le _ chunks
      have hstot : (s : ℚ) ≤ (total : ℚ) := by
        have : s ≤ total := by omega
        exact_mod_cast this
      have htot : (0 : ℚ) < (total : ℚ) := by
        exact_mod_cast Nat.pos_of_ne_zero ht
      refine ⟨by positivity, ?_⟩
      have hdiv : (s : ℚ) / (total : ℚ) ≤ 1 := (div_le_one htot).mpr hstot
      calc ((s : ℚ) / (total : ℚ)) * 100 ≤ 1 * 100 :=
            mul_le_mul_of_nonneg_right hdiv (by norm_num)
        _ = 100 := one_mul 100
  · rcases List.mem_map.mp hr with ⟨i, hi, rfl⟩
    have him : i < m := List.mem_range.mp hi
    have hm : 0 < m := lt_of_le_of_lt (Nat.zero_le i) him
    have hmQ : (0 : ℚ) < (m : ℚ) := by exact_mod_cast hm
    refine ⟨by positivity, ?_⟩
    have hile : ((i : ℚ) + 1) ≤ (m : ℚ) := by
      have : i + 1 ≤ m := him
      exact_mod_cast this
    have hdiv : ((i : ℚ) + 1) / (m : ℚ) ≤ 1 := (div_le_one hmQ).mpr hile
    calc (((i : ℚ) + 1) / (m : ℚ)) * 100 ≤ 1 * 100 :=
          mul_le_mul_of_nonneg_right hdiv (by norm_num)
      _ = 100 := one_mul 100

/-- Witness for C7 amended: one hundred bytes received in two chunks
against a declared total of one hundred, and a two-member archive. -/
theorem c7_percent_bounds_witness :
    (0 ≤ ((60 : ℚ) / 100) * 100 ∧ ((60 : ℚ) / 100) * 100 ≤ 100) ∧
    (0 ≤ (((0 : ℚ) + 1) / 2) * 100 ∧ (((0 : ℚ) + 1) / 2) * 100 ≤ 100) :=
  c7_percent_bounds 100 2 [60, 40] (((60 : ℚ) / 100) * 100)
    ((((0 : ℚ) + 1) / 2) * 100) (by norm_num)
    (by norm_num [downloadReports, cumSums])
    (by norm_num [extractReports]; exact ⟨0, by norm_num, by norm_num⟩)

/-! Section: List and string helper lemmas for the install state theorems -/

theorem any_name_eq_false {root : List RootEntry} {nm : String}
    (h : ∀ e ∈ root, e.name ≠ nm) :
    (root.any fun e => e.name = nm) = false := by
  simp only [List.any_eq_false, decide_eq_true_eq]
  exact h

theorem find?_append_right {α : Type} (p : α → Bool) (l1 l2 : List α)
    (h : ∀ x ∈ l1, p x = false) :
    (l1 ++ l2).find? p = l2.find? p := by
  induction l1 with
  | nil => rfl
  | cons a l ih =>
    rw [List.cons_append, List.find?_cons, h a (by simp)]
    exact ih (fun x hx => h x (by simp [hx]))

theorem removeEntry_eq_self (root : List RootEntry) (nm : String)
    (h : ∀ e ∈ root, e.name ≠ nm) : removeEntry root nm = root := by
  rw [removeEntry, List.filter_eq_self]
  intro a ha
  simpa using h a ha

theorem append_zip_ne (s : String) : s ++ ".zip" ≠ s := by
  intro h
  have hd : s.data ++ ('.' :: 'z' :: 'i' :: 'p' :: []) = s.data :=
    congrArg String.data h
  have hlen := congrArg List.length hd
  simp at hlen

theorem extractReports_getD (n k : Nat) (hk : k < n) :
    (extractReports n).getD k 0 = (((k : ℚ) + 1) / (n : ℚ)) * 100 := by
  have hb : k < (extractReports n).length := by
    simpa [extractReports] using hk
  rw [List.getD_eq_getElem _ 0 hb]
  simp [extractReports]

/-- C5 amended. For every archive with at least one member, the extraction
loop emits one report per member, the k-th being (k + 1) / n times one
hundred and the final one exactly one hundred; and a successful
install_game run deletes the archive file, so no entry of the archive's
name remains under the install root. An archive with zero members is the
exception the counterexample records: the fix-up step then raises and the
archive survives. -/
theorem c5_extract_reports_and_cleanup (n k : Nat) (st : LauncherState)
    (g : GameEntry) (env : InstallEnv) (hk : k < n)
    (hn : 1 ≤ env.zipEntryCount) (ho : env.outcome = InstallOutcome.ok)
    (hpre : ∀ e ∈ st.rootEntries, e.name ≠ g.name) :
    (extractReports n).length = n ∧
    (extractReports n).getD k 0 = (((k : ℚ) + 1) / (n : ℚ)) * 100 ∧
    (extractReports n).getD (n - 1) 0 = 100 ∧
    ∀ e ∈ (installGame st g env).2.rootEntries, e.name ≠ installZipName g := by
  have hn1 : 1 ≤ n := by omega
  refine ⟨by simp [extractReports], extractReports_getD n k hk, ?_, ?_⟩
  · rw [extractReports_getD n (n - 1) (by omega)]
    have hc : ((n - 1 : Nat) : ℚ) = (n : ℚ) - 1 := by
      push_cast [hn1]
      ring
    have hn0 : (n : ℚ) ≠ 0 := by
      have : (0 : ℚ) < (n : ℚ) := by exact_mod_cast hn1
      exact ne_of_gt this
    rw [hc]
    have hsum : (n : ℚ) - 1 + 1 = (n : ℚ) := by ring
    rw [hsum, div_self hn0, one_mul]
  · have hany : (st.rootEntries.any fun e => e.name = g.name) = false :=
      any_name_eq_false hpre
    have hcnt : ¬ (env.zipEntryCount = 0) := by omega
    simp only [installGame, hany, Bool.false_eq_true, if_false, ho, hcnt,
      ite_false]
    intro e he
    rw [removeEntry, List.mem_filter] at he
    simpa using he.2

/-- Witness for C5 amended at a three-member archive and a concrete
successful installation. -/
theorem c5_extract_reports_and_cleanup_witness :
    (extractReports 3).length = 3 ∧
    (extractReports 3).getD 1 0 = (((1 : Nat) : ℚ) + 1) / ((3 : Nat) : ℚ) * 100 ∧
    (extractReports 3).getD (3 - 1) 0 = 100 ∧
    ∀ e ∈ (installGame stFresh gRemote
        { totalSize := 100, chunks := [100], zipEntryCount := 3,
          outcome := InstallOutcome.ok }).2.rootEntries,
      e.name ≠ installZipName gRemote :=
  c5_extract_reports_and_cleanup 3 1 stFresh gRemote
    { totalSize := 100, chunks := [100], zipEntryCount := 3,
      outcome := InstallOutcome.ok }
    (by decide) (by decide) rfl (by intro e he; simp [stFresh] at he)

/-- C8 amended. For a remote-sourced game whose name and staging archive
name are both absent from the install root, a successful install followed
by uninstall restores the root's top-level entries exactly; the
counterexample shows the claim fails for local-sourced games, whose source
archive (which lives in the root) is consumed by the install. -/
theorem c8_remote_round_trip (st : LauncherState) (g : GameEntry)
    (env : InstallEnv) (hr : isRemoteUrl g.url = true)
    (h1 : ∀ e ∈ st.rootEntries, e.name ≠ g.name)
    (h2 : ∀ e ∈ st.rootEntries, e.name ≠ g.name ++ ".zip")
    (hn : 1 ≤ env.zipEntryCount) (ho : env.outcome = InstallOutcome.ok) :
    (installGame st g env).1 = true ∧
    (deleteGame (installGame st g env).2 g).1 = true ∧
    (deleteGame (installGame st g env).2 g).2.rootEntries = st.rootEntries := by
  have hzne : g.name ++ ".zip" ≠ g.name := append_zip_ne g.name
  have hzne2 : g.name ≠ g.name ++ ".zip" := Ne.symm hzne
  have hany1 : (st.rootEntries.any fun e => e.name = g.name) = false :=
    any_name_eq_false h1
  have hanyz : (st.rootEntries.any fun e => e.name = g.name ++ ".zip") = false :=
    any_name_eq_false h2
  have hcnt : ¬ (env.zipEntryCount = 0) := by omega
  have hroot1 : addFile st.rootEntries (g.name ++ ".zip") =
      st.rootEntries ++ [⟨g.name ++ ".zip", false⟩] := by
    rw [addFile, if_neg]
    simp [hanyz]
  have hany2 : ((st.rootEntries ++ ([⟨g.name ++ ".zip", false⟩] : List RootEntry)).any
      fun e => e.name = g.name) = false := by
    apply any_name_eq_false
    intro e he
    rcases List.mem_append.mp he with h | h
    · exact h1 e h
    · simp at h
      subst h
      exact hzne
  have hroot2 : addDir (st.rootEntries ++ [⟨g.name ++ ".zip", false⟩]) g.name =
      st.rootEntries ++ [⟨g.name ++ ".zip", false⟩, ⟨g.name, true⟩] := by
    rw [addDir, if_neg]
    · simp
    · simp [hany2]
  have hroot3 : removeEntry
      (st.rootEntries ++ [⟨g.name ++ ".zip", false⟩, ⟨g.name, true⟩])
      (g.name ++ ".zip") = st.rootEntries ++ [⟨g.name, true⟩] := by
    rw [removeEntry, List.filter_append]
    have hA : st.rootEntries.filter
        (fun e => e.name ≠ g.name ++ ".zip") = st.rootEntries := by
      rw [List.filter_eq_self]
      intro a ha
      simpa using h2 a ha
    have hB : ([⟨g.name ++ ".zip", false⟩, ⟨g.name, true⟩] : List RootEntry).filter
        (fun e => e.name ≠ g.name ++ ".zip") = [⟨g.name, true⟩] := by
      simp [List.filter_cons, hzne2]
    rw [hA, hB]
  have hzip : installZipName g = g.name ++ ".zip" := by
    rw [installZipName, if_pos hr]
  have hinstroot : (installGame st g env).2.rootEntries =
      st.rootEntries ++ [⟨g.name, true⟩] := by
    simp only [installGame, hany1, Bool.false_eq_true, if_false, ho, hcnt,
      ite_false, hr, if_true, hzip, hroot1, hroot2, hroot3]
  have hinst1 : (installGame st g env).1 = true := by
    simp only [installGame, hany1, Bool.false_eq_true, if_false, ho, hcnt,
      ite_false]
  have hfind : ((installGame st g env).2.rootEntries).find?
      (fun e => e.name = g.name) = some ⟨g.name, true⟩ := by
    rw [hinstroot]
    rw [find?_append_right _ _ _ (fun e he => by simpa using h1 e he)]
    simp [List.find?_cons]
  refine ⟨hinst1, ?_, ?_⟩
  · simp [deleteGame, hfind]
  · simp [deleteGame, hfind]
    rw [hinstroot, removeEntry, List.filter_append]
    have hA : st.rootEntries.filter (fun e => e.name ≠ g.name) =
        st.rootEntries := by
      rw [List.filter_eq_self]
      intro a ha
      simpa using h1 a ha
    have hB : ([⟨g.name, true⟩] : List RootEntry).filter
        (fun e => e.name ≠ g.name) = [] := by
      simp [List.filter_cons]
    rw [hA, hB, List.append_nil]

/-- Witness for C8 amended: a remote game installed into a root holding an
unrelated directory and file, then uninstalled. -/
theorem c8_remote_round_trip_witness :
    (installGame
        { games := [gRemote], installedGames := [],
          rootEntries := [⟨"Other", true⟩, ⟨"notes.txt", false⟩] }
        gRemote
        { totalSize := 100, chunks := [60, 40], zipEntryCount := 3,
          outcome := InstallOutcome.ok }).1 = true ∧
    (deleteGame (installGame
        { games := [gRemote], installedGames := [],
          rootEntries := [⟨"Other", true⟩, ⟨"notes.txt", false⟩] }
        gRemote
        { totalSize := 100, chunks := [60, 40], zipEntryCount := 3,
          outcome := InstallOutcome.ok }).2 gRemote).1 = true ∧
    (deleteGame (installGame
        { games := [gRemote], installedGames := [],
          rootEntries := [⟨"Other", true⟩, ⟨"notes.txt", false⟩] }
        gRemote
        { totalSize := 100, chunks := [60, 40], zipEntryCount := 3,
          outcome := InstallOutcome.ok }).2 gRemote).2.rootEntries =
      [⟨"Other", true⟩, ⟨"notes.txt", false⟩] :=
  c8_remote_round_trip
    { games := [gRemote], installedGames := [],
      rootEntries := [⟨"Other", true⟩, ⟨"notes.txt", false⟩] }
    gRemote
    { totalSize := 100, chunks := [60, 40], zipEntryCount := 3,
      outcome := InstallOutcome.ok }
    (by decide) (by decide) (by decide) (by decide) rfl

/-! Section: Resolver stability under the permission fix-up (for C9) -/

theorem bumpExec_name (t : String) (f : FileEntry) :
    (bumpExec t f).name = f.name := by
  unfold bumpExec
  split <;> rfl

theorem bumpExec_isFile (t : String) (f : FileEntry) :
    (bumpExec t f).isFile = f.isFile := by
  unfold bumpExec
  split <;> rfl

theorem bumpExec_idem (t : String) (f : FileEntry) :
    bumpExec t (bumpExec t f) = bumpExec t f := by
  unfold bumpExec
  by_cases h : f.name = t <;> simp [h]

theorem find?_map_inv {α : Type} (p : α → Bool) (g : α → α)
    (h : ∀ x, p (g x) = p x) (l : List α) :
    (l.map g).find? p = (l.find? p).map g := by
  induction l with
  | nil => rfl
  | cons a l2 ih =>
    rw [List.map_cons, List.find?_cons, List.find?_cons, h a]
    cases hp : p a
    · simp [hp] at ih ⊢
      exact ih
    · rfl

theorem exactNames_lower :
    ∀ n ∈ exactNames, mainNames.contains (lowerStr n) = true := by
  decide

theorem cand_bump_inv (t : String)
    (hsafe : ∀ f : FileEntry, f.name = t → f.isFile = true →
      isMainExecutable f = true) :
    ∀ f, runGameCandidate (bumpExec t f) = runGameCandidate f := by
  intro f
  by_cases hn : f.name = t
  · rw [bumpExec, if_pos hn]
    by_cases hf : f.isFile = true
    · have hmain := hsafe f hn hf
      simp [runGameCandidate, isMainExecutable] at hmain ⊢
      simp [hmain, hf]
    · have hff : f.isFile = false := by
        revert hf
        cases f.isFile <;> simp
      simp [runGameCandidate, hff]
  · rw [bumpExec, if_neg hn]

theorem any_name_map_bump (dir : List FileEntry) (t : String) (nm : String) :
    ((dir.map (bumpExec t)).any fun f => f.name = nm) =
      (dir.any fun f => f.name = nm) := by
  rw [List.any_map]
  congr 1
  funext x
  simp [Function.comp, bumpExec_name]

theorem resolve_map_bump (dir : List FileEntry) (t : String)
    (hsafe : ∀ f, runGameCandidate (bumpExec t f) = runGameCandidate f) :
    resolveRunGame (dir.map (bumpExec t)) = resolveRunGame dir := by
  rw [resolveRunGame, resolveRunGame, find?_map_inv _ _ hsafe dir]
  cases hfind : dir.find? runGameCandidate with
  | some f => simp [bumpExec_name]
  | none =>
    simp only [Option.map_none']
    have hfc : fallbackCommon (dir.map (bumpExec t)) = fallbackCommon dir := by
      rw [fallbackCommon, fallbackCommon]
      congr 1
      funext nm
      exact any_name_map_bump dir t nm
    rw [hfc]
    cases hfc2 : fallbackCommon dir with
    | some nm => rfl
    | none =>
      rw [fallbackPy, fallbackPy,
        find?_map_inv _ _ (fun x => by rw [bumpExec_name]) dir]
      cases dir.find? (fun f => strEndsWith f.name ".py") with
      | some f => simp [bumpExec_name]
      | none => rfl

/-- C9. The executable resolution of run_game is unchanged by the
install-time permission fix-up (the chmod target already satisfies the
resolver's combined test, so setting its execute bit cannot change which
file is found first), and the fix-up itself is idempotent: repeating it on
the unchanged directory modifies nothing further. Hence resolving twice,
with the first resolution's side effect applied in between, returns the
same path both times. -/
theorem c9_resolution_stable (dir : List FileEntry) :
    resolveRunGame (setExecutePermissions dir) = resolveRunGame dir ∧
    setExecutePermissions (setExecutePermissions dir) =
      setExecutePermissions dir := by
  cases hE : exactNames.find? (fun n => dir.any (fun f => f.name = n)) with
  | some n =>
    have hnmem : n ∈ exactNames := List.mem_of_find?_eq_some hE
    have hsafe : ∀ f, runGameCandidate (bumpExec n f) = runGameCandidate f := by
      apply cand_bump_inv
      intro f hfn _
      have hlow := exactNames_lower n hnmem
      simp at hlow
      simp [isMainExecutable, hfn, hlow]
    have hset : setExecutePermissions dir = dir.map (bumpExec n) := by
      rw [setExecutePermissions, hE]
    have hfunext : (fun m => (dir.map (bumpExec n)).any (fun f => f.name = m)) =
        (fun m => dir.any (fun f => f.name = m)) :=
      funext (fun m => any_name_map_bump dir n m)
    refine ⟨by rw [hset]; exact resolve_map_bump dir n hsafe, ?_⟩
    rw [hset, setExecutePermissions, hfunext, hE]
    dsimp only
    rw [List.map_map]
    congr 1
    funext f
    simp [Function.comp, bumpExec_idem]
  | none =>
    have hfunext0 : ∀ t : String,
        (fun m => (dir.map (bumpExec t)).any (fun f => f.name = m)) =
          (fun m => dir.any (fun f => f.name = m)) :=
      fun t => funext (fun m => any_name_map_bump dir t m)
    cases hF : dir.find?
        (fun f => f.isFile && (!pyHasSuffix f.name && isUpperFirst f.name)) with
    | none =>
      have hset : setExecutePermissions dir = dir := by
        rw [setExecutePermissions, hE, hF]
      rw [hset]
      exact ⟨rfl, hset⟩
    | some f0 =>
      have hprop := List.find?_some hF
      have hfile : f0.isFile = true := by
        simp at hprop
        exact hprop.1
      have hsafe : ∀ f, runGameCandidate (bumpExec f0.name f) =
          runGameCandidate f := by
        apply cand_bump_inv
        intro f hfn _
        simp at hprop
        simp [isMainExecutable, hfn, hprop.2.1, hprop.2.2]
      have hset : setExecutePermissions dir = dir.map (bumpExec f0.name) := by
        rw [setExecutePermissions, hE, hF]
      have hpredinv : ∀ x, ((bumpExec f0.name x).isFile &&
          (!pyHasSuffix (bumpExec f0.name x).name &&
            isUpperFirst (bumpExec f0.name x).name)) =
          (x.isFile && (!pyHasSuffix x.name && isUpperFirst x.name)) := by
        intro x
        rw [bumpExec_isFile, bumpExec_name]
      refine ⟨by rw [hset]; exact resolve_map_bump dir f0.name hsafe, ?_⟩
      rw [hset, setExecutePermissions, hfunext0 f0.name, hE,
        find?_map_inv _ _ hpredinv dir, hF]
      simp only [Option.map_some']
      rw [bumpExec_name, List.map_map]
      congr 1
      funext f
      simp [Function.comp, bumpExec_idem]

end EarthLauncher
